import Mathlib

/-!
Shallow embedding of the live-chat server core (`server/routes.ts`,
`server/storage.ts`, `shared/schema.ts`).

The WebSocket registry `connections : Map<WebSocket, ConnInfo>` is modelled
as an association list keyed by a connection id (`Nat`); JS `Map` iteration
order and insertion/overwrite semantics are mirrored by `mapSet`/`alookup`.
`readyState === WebSocket.OPEN` is modelled by a predicate `rs : ConnId → Bool`
supplied by the transport layer.  Database tables are lists of rows; drizzle
`timestamp` columns without `notNull()` are nullable, hence `Option Nat`.
`Date.now()` values are explicit `Nat` parameters.  Fallible operations
(zod parses, database writes) are `Except`-valued parameters.
-/

namespace LiveChat

/-- Connection info stored in the `connections` map (routes.ts line 14). -/
structure ConnInfo where
  username : String
  isAdmin : Bool
  roomId : String
deriving DecidableEq, Repr

/-- A row of the `messages` table (shared/schema.ts).  `timestamp` is a
nullable column defaulting to `now()`, hence `Option Nat`. -/
structure Message where
  id : Nat
  roomId : String
  senderUsername : String
  receiverUsername : String
  message : String
  timestamp : Option Nat
  isRead : Bool
deriving DecidableEq, Repr

/-- The fields of `insertMessageSchema` (shared/schema.ts): the columns the
router supplies on insert; `id`, `timestamp`, `isRead` are store-assigned. -/
structure InsertMessage where
  roomId : String
  senderUsername : String
  receiverUsername : String
  message : String
deriving DecidableEq, Repr

/-- A row of the `online_users` table, restricted to the columns written by
`insertOnlineUserSchema` (the serial `id` and the `joined_at` default are
store-assigned and read by no routing code). -/
structure OnlineUser where
  username : String
  roomId : String
  socketId : String
  isAdmin : Bool
deriving DecidableEq, Repr

/-- A row of the `help_requests` table. -/
structure HelpRequest where
  id : Nat
  username : String
  roomId : String
  message : String
  status : String
  createdAt : Option Nat
deriving DecidableEq, Repr

/-- The fields of `insertHelpRequestSchema`; `status` has a database default
so the zod insert schema makes it optional. -/
structure InsertHelpRequest where
  username : String
  roomId : String
  message : String
  status : Option String
deriving DecidableEq, Repr

/-- One element of the list returned by
`DatabaseStorage.getAllUsersWithMessages` (storage.ts). -/
structure UserWithMessages where
  username : String
  roomId : String
  lastMessage : Option Message
  unreadCount : Nat
deriving DecidableEq, Repr

/-- Outbound WebSocket frames the modelled handlers can emit
(`message`, `typing`, `userLeft`, `helpRequest` envelopes of routes.ts).
In the `typing` frame the `roomId` field is present for user-authored
typing events and absent for admin-authored ones, hence `Option`. -/
inductive Outbound where
  | message (m : Message)
  | typing (username : String) (isTyping : Bool) (roomId : Option String)
  | userLeft (username : String) (roomId : String)
  | helpRequest (h : HelpRequest)
deriving DecidableEq, Repr

/-- HTTP outcome of `POST /api/help-requests`. -/
inductive HelpResponse where
  | json (h : HelpRequest)
  | badRequest
deriving DecidableEq, Repr

/-- `data` payload of an inbound `message` envelope.  `targetUsername` is
absent from user-authored events, hence `Option`. -/
structure MessageData where
  roomId : String
  targetUsername : Option String
  message : String
deriving DecidableEq, Repr

/-- `data` payload of an inbound `typing` envelope. -/
structure TypingData where
  targetUsername : Option String
  isTyping : Bool
deriving DecidableEq, Repr

/-- `data` payload of an inbound `join` envelope. -/
structure JoinData where
  username : String
  isAdmin : Bool
  roomId : String
deriving DecidableEq, Repr

/-- Connection identifier standing for a `WebSocket` object. -/
abbrev ConnId := Nat

/-- The in-memory `connections` registry (JS `Map`, insertion-ordered). -/
abbrev Registry := List (ConnId × ConnInfo)

section Assoc

variable {κ α : Type} [DecidableEq κ]

/-- `Map.get` / JS object property lookup on an association list. -/
def alookup (k : κ) : List (κ × α) → Option α
  | [] => none
  | (k₂, v) :: rest => if k₂ = k then some v else alookup k rest

/-- In-place value update for an existing key, preserving key order
(JS object / `Map` assignment on a present key). -/
def aupdate (k : κ) (v : α) : List (κ × α) → List (κ × α)
  | [] => []
  | (k₂, v₂) :: rest => if k₂ = k then (k₂, v) :: rest else (k₂, v₂) :: aupdate k v rest

/-- JS `Map.set`: overwrite in place if the key is present, else append. -/
def mapSet : List (κ × α) → κ → α → List (κ × α)
  | [], k, v => [(k, v)]
  | (k₂, v₂) :: rest, k, v =>
    if k₂ = k then (k, v) :: rest else (k₂, v₂) :: mapSet rest k v

/-- JS `Map.delete`. -/
def mapDelete (k : κ) (l : List (κ × α)) : List (κ × α) :=
  l.filter (fun p => p.1 ≠ k)

end Assoc

/-- `storage.addOnlineUser`: insert a presence row (appended; the serial id
is read by no routing code). -/
def addOnlineUser (store : List OnlineUser) (u : OnlineUser) : List OnlineUser :=
  store ++ [u]

/-- `storage.removeOnlineUser`: delete rows whose `socketId` equals the
argument. -/
def removeOnlineUser (store : List OnlineUser) (sid : String) : List OnlineUser :=
  store.filter (fun r => r.socketId ≠ sid)

/-- Spec §3: a username is online iff at least one presence record for it
exists. -/
def isUserOnline (store : List OnlineUser) (u : String) : Bool :=
  store.any (fun r => r.username == u)

/-- The socket-id string `` `${username}-${Date.now()}` `` built in the join
and close handlers (routes.ts lines 118 and 274). -/
def socketIdFor (username : String) (now : Nat) : String :=
  username ++ "-" ++ toString now

/-- `storage.markMessagesAsRead`: set `isRead := true` on rows matching
`roomId = r AND receiverUsername = username` (storage.ts lines 378–384). -/
def markMessagesAsRead (msgs : List Message) (r : String) (username : String) : List Message :=
  msgs.map (fun m =>
    if m.roomId == r && m.receiverUsername == username then { m with isRead := true } else m)

/-- The grouping key of `getAllUsersWithMessages`:
`msg.senderUsername === 'admin' ? msg.receiverUsername : msg.senderUsername`. -/
def party (m : Message) : String :=
  if m.senderUsername == "admin" then m.receiverUsername else m.senderUsername

/-- The `where or(eq(receiverUsername,'admin'), eq(senderUsername,'admin'))`
filter of `getAllUsersWithMessages`. -/
def isAdminSide (m : Message) : Bool :=
  m.receiverUsername == "admin" || m.senderUsername == "admin"

/-- The unread-count condition of `getAllUsersWithMessages`:
`msg.senderUsername === username && msg.receiverUsername === 'admin' && !msg.isRead`. -/
def unreadFor (u : String) (m : Message) : Bool :=
  m.senderUsername == u && m.receiverUsername == "admin" && !m.isRead

/-- The last-message replacement condition of `getAllUsersWithMessages`:
`!currentUser.lastMessage || (msg.timestamp && (!currentUser.lastMessage.timestamp
|| msg.timestamp > currentUser.lastMessage.timestamp))`
(`Date` objects are truthy; `null` is falsy). -/
def shouldReplaceLast (last : Option Message) (msg : Message) : Bool :=
  match last with
  | none => true
  | some lm =>
    match msg.timestamp, lm.timestamp with
    | none, _ => false
    | some _, none => true
    | some t, some t₂ => decide (t₂ < t)

/-- The body of one `reduce` iteration of `getAllUsersWithMessages` applied
to the (fresh or existing) entry: the two sequential in-place mutations,
written as one record update (the first mutation touches only `lastMessage`,
the second only `unreadCount`). -/
def applyMsg (username : String) (cur : UserWithMessages) (msg : Message) : UserWithMessages :=
  { username := cur.username
    roomId := cur.roomId
    lastMessage := if shouldReplaceLast cur.lastMessage msg then some msg else cur.lastMessage
    unreadCount := cur.unreadCount + (if unreadFor username msg then 1 else 0) }

/-- One step of the `reduce` in `getAllUsersWithMessages`:
`acc[username]` is created (at the end, insertion order) if absent with
`{username, roomId: msg.roomId, lastMessage: null, unreadCount: 0}`, then
mutated by the iteration body. -/
def projStep (acc : List (String × UserWithMessages)) (msg : Message) :
    List (String × UserWithMessages) :=
  let username := party msg
  match alookup username acc with
  | none => acc ++ [(username, applyMsg username ⟨username, msg.roomId, none, 0⟩ msg)]
  | some cur => aupdate username (applyMsg username cur msg) acc

/-- `DatabaseStorage.getAllUsersWithMessages` (storage.ts lines 443–488):
filter admin-side messages, `reduce` into a username-keyed record,
`Object.values`.  The argument list stands for the `messages` table in the
order the `orderBy(asc(timestamp))` select returns it. -/
def getAllUsersWithMessages (msgs : List Message) : List UserWithMessages :=
  (((msgs.filter isAdminSide).foldl projStep []).map Prod.snd)

/-- The `validatedMessage` built by `insertMessageSchema.parse` in the
`message` case (routes.ts lines 176–181): `receiverUsername` is
`connectionInfo.isAdmin ? messageData.targetUsername : 'admin'`; the zod
parse rejects the object when that value is `undefined`. -/
def buildInsertMessage (info : ConnInfo) (d : MessageData) : Option InsertMessage :=
  match (if info.isAdmin then d.targetUsername else some "admin") with
  | none => none
  | some recv => some ⟨d.roomId, info.username, recv, d.message⟩

/-- The `message` case of the WebSocket handler (routes.ts lines 167–211).
`persist` stands for `storage.createMessage`; an `Except.error` models the
write rejecting, in which case the exception reaches the handler's `catch`
and nothing is sent.  Returns the list of `(connection, frame)` sends. -/
def messageCase (conns : Registry) (rs : ConnId → Bool) (ws : ConnId) (d : MessageData)
    (persist : InsertMessage → Except Unit Message) : List (ConnId × Outbound) :=
  match alookup ws conns with
  | none => []
  | some info =>
    match buildInsertMessage info d with
    | none => []
    | some im =>
      match persist im with
      | .error _ => []
      | .ok message =>
        if info.isAdmin then
          (conns.filter (fun p =>
              ((some p.2.username == d.targetUsername)
                || (p.2.isAdmin && p.2.username == info.username)) && rs p.1)).map
            (fun p => (p.1, Outbound.message message))
        else
          (conns.filter (fun p =>
              (p.2.isAdmin || p.2.username == info.username) && rs p.1)).map
            (fun p => (p.1, Outbound.message message))

/-- The `typing` case of the WebSocket handler (routes.ts lines 213–251).
The message store is threaded through unchanged: the case performs no
storage operation. -/
def typingCase (conns : Registry) (rs : ConnId → Bool) (ws : ConnId) (d : TypingData)
    (msgStore : List Message) : List Message × List (ConnId × Outbound) :=
  match alookup ws conns with
  | none => (msgStore, [])
  | some info =>
    if info.isAdmin then
      (msgStore,
        (conns.filter (fun p => (some p.2.username == d.targetUsername) && rs p.1)).map
          (fun p => (p.1, Outbound.typing info.username d.isTyping none)))
    else
      (msgStore,
        (conns.filter (fun p => p.2.isAdmin && rs p.1)).map
          (fun p => (p.1, Outbound.typing info.username d.isTyping (some info.roomId))))

/-- The `markAsRead` case of the WebSocket handler (routes.ts lines 253–261). -/
def markAsReadCase (conns : Registry) (ws : ConnId) (roomId : String)
    (msgs : List Message) : List Message :=
  match alookup ws conns with
  | none => msgs
  | some info => markMessagesAsRead msgs roomId info.username

/-- The registry and presence effects of the `join` case (routes.ts lines
105–124): `connections.set(ws, identity)` followed by
`storage.addOnlineUser({username, roomId, socketId, isAdmin})` with
`socketId = username-Date.now()`.  The user upsert and the bootstrap /
`newUser` replies read state but do not touch registry or presence. -/
def joinCase (conns : Registry) (store : List OnlineUser) (ws : ConnId) (d : JoinData)
    (now : Nat) : Registry × List OnlineUser :=
  (mapSet conns ws ⟨d.username, d.isAdmin, d.roomId⟩,
   addOnlineUser store ⟨d.username, d.roomId, socketIdFor d.username now, d.isAdmin⟩)

/-- The `ws.on('close')` handler (routes.ts lines 268–293): look the
connection up, call `storage.removeOnlineUser` on the socket id rebuilt from
a fresh `Date.now()` (`now` here), notify admins with `userLeft` when the
closer was not an admin, and delete the registry entry. -/
def closeCase (conns : Registry) (store : List OnlineUser) (rs : ConnId → Bool)
    (ws : ConnId) (now : Nat) :
    Registry × List OnlineUser × List (ConnId × Outbound) :=
  match alookup ws conns with
  | none => (conns, store, [])
  | some info =>
    let store₂ := removeOnlineUser store (socketIdFor info.username now)
    let sends :=
      if info.isAdmin then []
      else
        (conns.filter (fun p => p.2.isAdmin && rs p.1)).map
          (fun p => (p.1, Outbound.userLeft info.username info.roomId))
    (mapDelete ws conns, store₂, sends)

/-- `POST /api/help-requests` (routes.ts lines 66–85): parse, persist,
notify all open admin connections with a `helpRequest` frame carrying the
stored row, respond with the stored row; any exception yields a 400 and no
sends. -/
def helpRequestsPost (conns : Registry) (rs : ConnId → Bool)
    (parsed : Except Unit InsertHelpRequest)
    (persist : InsertHelpRequest → Except Unit HelpRequest) :
    List (ConnId × Outbound) × HelpResponse :=
  match parsed with
  | .error _ => ([], .badRequest)
  | .ok v =>
    match persist v with
    | .error _ => ([], .badRequest)
    | .ok h =>
      ((conns.filter (fun p => p.2.isAdmin && rs p.1)).map
          (fun p => (p.1, Outbound.helpRequest h)),
       .json h)

/-- Timestamp value of a message with a non-null timestamp. -/
def tsVal (m : Message) : Nat :=
  m.timestamp.getD 0

/-- A message of the conversation pair between non-admin `u` and the admin:
`(sender = u AND receiver = 'admin') OR (sender = 'admin' AND receiver = u)`. -/
def pairFor (u : String) (m : Message) : Bool :=
  (m.senderUsername == u && m.receiverUsername == "admin")
    || (m.senderUsername == "admin" && m.receiverUsername == u)

/-- Well-formedness of a row reaching the `reduce` of
`getAllUsersWithMessages`: it passed the admin-side filter, it is not a
degenerate admin-to-admin message, and its timestamp is non-null (the insert
schema omits `timestamp`, so the database default `now()` always fills it). -/
def goodMsg (m : Message) : Prop :=
  isAdminSide m = true
    ∧ ¬(m.senderUsername = "admin" ∧ m.receiverUsername = "admin")
    ∧ m.timestamp.isSome = true

/-- Invariant of the `reduce` accumulator of `getAllUsersWithMessages` after
processing the prefix `P` of the filtered message list. -/
structure ProjInv (acc : List (String × UserWithMessages)) (P : List Message) : Prop where
  nodupKeys : (acc.map Prod.fst).Nodup
  keysPart : ∀ k, (∃ e, (k, e) ∈ acc) ↔ (∃ m ∈ P, party m = k)
  entries : ∀ k e, (k, e) ∈ acc →
    e.username = k
    ∧ e.unreadCount = (P.filter (fun m => unreadFor k m)).length
    ∧ ∃ m, e.lastMessage = some m ∧ m ∈ P ∧ party m = k
        ∧ ∀ m₂ ∈ P, party m₂ = k → tsVal m₂ ≤ tsVal m

/-! ### Association-list lemmas -/

section AssocLemmas

variable {κ α : Type} [DecidableEq κ]

theorem alookup_some_mem {l : List (κ × α)} {k : κ} {v : α}
    (h : alookup k l = some v) : (k, v) ∈ l := by
  induction l with
  | nil => simp [alookup] at h
  | cons hd tl ih =>
    obtain ⟨k₂, v₂⟩ := hd
    by_cases hk : k₂ = k
    · subst hk
      simp [alookup] at h
      subst h
      exact List.mem_cons_self _ _
    · simp [alookup, hk] at h
      exact List.mem_cons_of_mem _ (ih h)

theorem alookup_eq_none_iff {l : List (κ × α)} {k : κ} :
    alookup k l = none ↔ k ∉ l.map Prod.fst := by
  induction l with
  | nil => simp [alookup]
  | cons hd tl ih =>
    obtain ⟨k₂, v₂⟩ := hd
    by_cases hk : k₂ = k
    · subst hk
      simp [alookup]
    · simp [alookup, hk, ih, Ne.symm hk]

theorem mem_alookup {l : List (κ × α)} {k : κ} {v : α}
    (hnd : (l.map Prod.fst).Nodup) (h : (k, v) ∈ l) : alookup k l = some v := by
  induction l with
  | nil => simp at h
  | cons hd tl ih =>
    obtain ⟨k₂, v₂⟩ := hd
    simp only [List.map_cons, List.nodup_cons] at hnd
    rcases List.mem_cons.mp h with h₁ | h₂
    · rw [Prod.mk.injEq] at h₁
      obtain ⟨hk, hv⟩ := h₁
      simp [alookup, hk.symm, hv]
    · by_cases hk : k₂ = k
      · subst hk
        exact absurd (List.mem_map.mpr ⟨(k₂, v), h₂, rfl⟩) hnd.1
      · simp [alookup, hk]
        exact ih hnd.2 h₂

theorem alookup_mem_iff {l : List (κ × α)} {k : κ} {v : α}
    (hnd : (l.map Prod.fst).Nodup) : alookup k l = some v ↔ (k, v) ∈ l :=
  ⟨alookup_some_mem, mem_alookup hnd⟩

theorem aupdate_keys (k : κ) (v : α) (l : List (κ × α)) :
    (aupdate k v l).map Prod.fst = l.map Prod.fst := by
  induction l with
  | nil => rfl
  | cons hd tl ih =>
    obtain ⟨k₂, v₂⟩ := hd
    by_cases hk : k₂ = k <;> simp [aupdate, hk, ih]

theorem mem_aupdate_cases {l : List (κ × α)} {k k₃ : κ} {v : α} {e₃ : α}
    (h : (k₃, e₃) ∈ aupdate k v l) : (k₃ = k ∧ e₃ = v) ∨ (k₃, e₃) ∈ l := by
  induction l with
  | nil => simp [aupdate] at h
  | cons hd tl ih =>
    obtain ⟨k₂, v₂⟩ := hd
    by_cases hk : k₂ = k
    · subst hk
      simp only [aupdate, if_pos rfl] at h
      rcases List.mem_cons.mp h with h₁ | h₂
      · rw [Prod.mk.injEq] at h₁
        exact Or.inl ⟨h₁.1, h₁.2⟩
      · exact Or.inr (List.mem_cons_of_mem _ h₂)
    · simp only [aupdate, if_neg hk] at h
      rcases List.mem_cons.mp h with h₁ | h₂
      · exact Or.inr (List.mem_cons.mpr (Or.inl h₁))
      · rcases ih h₂ with h₃ | h₄
        · exact Or.inl h₃
        · exact Or.inr (List.mem_cons_of_mem _ h₄)

theorem mem_aupdate_of_ne {l : List (κ × α)} {k k₃ : κ} {v : α} {e₃ : α}
    (hne : k₃ ≠ k) (h : (k₃, e₃) ∈ l) : (k₃, e₃) ∈ aupdate k v l := by
  induction l with
  | nil => simp at h
  | cons hd tl ih =>
    obtain ⟨k₂, v₂⟩ := hd
    rcases List.mem_cons.mp h with h₁ | h₂
    · rw [Prod.mk.injEq] at h₁
      obtain ⟨hk, hv⟩ := h₁
      subst hk
      simp [aupdate, hne, hv]
    · by_cases hk : k₂ = k <;> simp [aupdate, hk]
      · exact Or.inr h₂
      · exact Or.inr (ih h₂)

theorem mem_aupdate_self {l : List (κ × α)} {k : κ} (v : α)
    (hk : k ∈ l.map Prod.fst) : (k, v) ∈ aupdate k v l := by
  induction l with
  | nil => simp at hk
  | cons hd tl ih =>
    obtain ⟨k₂, v₂⟩ := hd
    by_cases hke : k₂ = k
    · subst hke
      simp [aupdate]
    · simp only [List.map_cons, List.mem_cons] at hk
      rcases hk with h₁ | h₂
      · exact absurd h₁.symm hke
      · simp only [aupdate, if_neg hke]
        exact List.mem_cons_of_mem _ (ih h₂)

theorem alookup_mapSet_self (l : List (κ × α)) (k : κ) (v : α) :
    alookup k (mapSet l k v) = some v := by
  induction l with
  | nil => simp [mapSet, alookup]
  | cons hd tl ih =>
    obtain ⟨k₂, v₂⟩ := hd
    by_cases hk : k₂ = k <;> simp [mapSet, hk, alookup, ih]

theorem alookup_mapSet_ne (l : List (κ × α)) {k k₃ : κ} (v : α) (hne : k₃ ≠ k) :
    alookup k₃ (mapSet l k v) = alookup k₃ l := by
  induction l with
  | nil => simp [mapSet, alookup, Ne.symm hne]
  | cons hd tl ih =>
    obtain ⟨k₂, v₂⟩ := hd
    by_cases hk : k₂ = k
    · subst hk
      simp [mapSet, alookup, Ne.symm hne]
    · simp [mapSet, hk, alookup, ih]

end AssocLemmas

/-! ### Broadcast (filter-then-map) lemmas -/

section BroadcastLemmas

variable {κ α β : Type}

theorem mem_broadcast_iff [DecidableEq κ] {l : List (κ × α)} {p : κ × α → Bool} {out : β}
    {c : κ} {o : β} (hnd : (l.map Prod.fst).Nodup) :
    (c, o) ∈ (l.filter p).map (fun x => (x.1, out)) ↔
      o = out ∧ ∃ i, alookup c l = some i ∧ p (c, i) = true := by
  constructor
  · intro h
    obtain ⟨x, hx, hfx⟩ := List.mem_map.mp h
    obtain ⟨c₂, i⟩ := x
    obtain ⟨hxl, hxp⟩ := List.mem_filter.mp hx
    rw [Prod.mk.injEq] at hfx
    obtain ⟨hc, ho⟩ := hfx
    subst hc
    exact ⟨ho.symm, i, mem_alookup hnd hxl, hxp⟩
  · rintro ⟨ho, i, hl, hp⟩
    subst ho
    exact List.mem_map.mpr ⟨(c, i), List.mem_filter.mpr ⟨alookup_some_mem hl, hp⟩, rfl⟩

theorem broadcast_nodup {l : List (κ × α)} (p : κ × α → Bool) (out : β)
    (hnd : (l.map Prod.fst).Nodup) :
    ((l.filter p).map (fun x => (x.1, out))).Nodup := by
  have h₂ : ((l.filter p).map Prod.fst).Sublist (l.map Prod.fst) :=
    (List.filter_sublist l).map Prod.fst
  have h₃ : ((l.filter p).map Prod.fst).Nodup := List.Nodup.sublist h₂ hnd
  have h₄ : (((l.filter p).map (fun x => (x.1, out))).map Prod.fst).Nodup := by
    simpa [List.map_map, Function.comp] using h₃
  exact h₄.of_map _

end BroadcastLemmas

/-! ### Conversation projection lemmas -/

section ProjLemmas

theorem exists_mem_iff_mem_keys {κ α : Type} {l : List (κ × α)} {k : κ} :
    (∃ v, (k, v) ∈ l) ↔ k ∈ l.map Prod.fst := by
  constructor
  · rintro ⟨v, hv⟩
    exact List.mem_map.mpr ⟨(k, v), hv, rfl⟩
  · intro h
    obtain ⟨x, hx, hfx⟩ := List.mem_map.mp h
    exact ⟨x.2, by rw [← hfx]; exact hx⟩

theorem mem_aupdate_cases_nodup {κ α : Type} [DecidableEq κ]
    {l : List (κ × α)} {k k₃ : κ} {v e₃ : α}
    (hnd : (l.map Prod.fst).Nodup) (h : (k₃, e₃) ∈ aupdate k v l) :
    (k₃ = k ∧ e₃ = v) ∨ (k₃ ≠ k ∧ (k₃, e₃) ∈ l) := by
  induction l with
  | nil => simp [aupdate] at h
  | cons hd tl ih =>
    obtain ⟨k₂, v₂⟩ := hd
    simp only [List.map_cons, List.nodup_cons] at hnd
    by_cases hk : k₂ = k
    · subst hk
      simp only [aupdate, if_pos rfl] at h
      rcases List.mem_cons.mp h with h₁ | h₂
      · rw [Prod.mk.injEq] at h₁
        exact Or.inl ⟨h₁.1, h₁.2⟩
      · have hne : k₃ ≠ k₂ := by
          intro he
          subst he
          exact hnd.1 (List.mem_map.mpr ⟨(k₃, e₃), h₂, rfl⟩)
        exact Or.inr ⟨hne, List.mem_cons_of_mem _ h₂⟩
    · simp only [aupdate, if_neg hk] at h
      rcases List.mem_cons.mp h with h₁ | h₂
      · rw [Prod.mk.injEq] at h₁
        refine Or.inr ⟨?_, List.mem_cons.mpr (Or.inl (by rw [Prod.mk.injEq]; exact h₁))⟩
        rw [h₁.1]
        exact hk
      · rcases ih hnd.2 h₂ with h₃ | h₄
        · exact Or.inl h₃
        · exact Or.inr ⟨h₄.1, List.mem_cons_of_mem _ h₄.2⟩

theorem party_ne_admin {m : Message} (hm : goodMsg m) : party m ≠ "admin" := by
  obtain ⟨_, hna, _⟩ := hm
  unfold party
  split
  · rename_i hs
    intro hr
    exact hna ⟨beq_iff_eq.mp hs, hr⟩
  · rename_i hs
    intro hr
    exact hs (beq_iff_eq.mpr hr)

theorem pairFor_iff_party {u : String} {m : Message} (hm : goodMsg m) :
    pairFor u m = true ↔ party m = u := by
  obtain ⟨hside, hna, _⟩ := hm
  by_cases hs : m.senderUsername = "admin"
  · have hr : m.receiverUsername ≠ "admin" := fun h => hna ⟨hs, h⟩
    simp [pairFor, party, hs, hr]
  · have hr : m.receiverUsername = "admin" := by
      unfold isAdminSide at hside
      rw [Bool.or_eq_true] at hside
      rcases hside with h₁ | h₂
      · exact beq_iff_eq.mp h₁
      · exact absurd (beq_iff_eq.mp h₂) hs
    by_cases hu : u = "admin"
    · subst hu
      simp [pairFor, party, hs, hr]
    · simp [pairFor, party, hs, hr, Ne.symm hu]

theorem pairFor_isAdminSide {u : String} {m : Message} (h : pairFor u m = true) :
    isAdminSide m = true := by
  unfold pairFor at h
  unfold isAdminSide
  rw [Bool.or_eq_true] at h ⊢
  rw [Bool.and_eq_true, Bool.and_eq_true] at h
  rcases h with h₁ | h₂
  · exact Or.inl h₁.2
  · exact Or.inr h₂.1

theorem unreadFor_party {u : String} {m : Message} (hm : goodMsg m)
    (h : unreadFor u m = true) : party m = u := by
  obtain ⟨_, hna, _⟩ := hm
  unfold unreadFor at h
  rw [Bool.and_eq_true, Bool.and_eq_true] at h
  obtain ⟨⟨hs, hr⟩, _⟩ := h
  have hs₂ := beq_iff_eq.mp hs
  have hr₂ := beq_iff_eq.mp hr
  have hsne : m.senderUsername ≠ "admin" := by
    intro he
    exact hna ⟨he, hr₂⟩
  unfold party
  rw [if_neg (by simpa using hsne)]
  exact hs₂

theorem unreadFor_isAdminSide {u : String} {m : Message} (h : unreadFor u m = true) :
    isAdminSide m = true := by
  unfold unreadFor at h
  rw [Bool.and_eq_true, Bool.and_eq_true] at h
  unfold isAdminSide
  rw [Bool.or_eq_true]
  exact Or.inl h.1.2

theorem shouldReplaceLast_some {m lm : Message} (h₁ : m.timestamp.isSome = true)
    (h₂ : lm.timestamp.isSome = true) :
    shouldReplaceLast (some lm) m = decide (tsVal lm < tsVal m) := by
  obtain ⟨t, ht⟩ := Option.isSome_iff_exists.mp h₁
  obtain ⟨t₂, ht₂⟩ := Option.isSome_iff_exists.mp h₂
  simp [shouldReplaceLast, tsVal, ht, ht₂]

theorem projStep_inv {acc : List (String × UserWithMessages)} {P : List Message}
    (m : Message) (hm : goodMsg m) (hP : ∀ x ∈ P, goodMsg x)
    (h : ProjInv acc P) : ProjInv (projStep acc m) (P ++ [m]) := by
  cases hl : alookup (party m) acc with
  | none =>
    have hstep : projStep acc m
        = acc ++ [(party m, applyMsg (party m) ⟨party m, m.roomId, none, 0⟩ m)] := by
      simp [projStep, hl]
    have he₀ : applyMsg (party m) ⟨party m, m.roomId, none, 0⟩ m
        = ⟨party m, m.roomId, some m, if unreadFor (party m) m then 1 else 0⟩ := by
      simp [applyMsg, shouldReplaceLast]
    have hknotin : party m ∉ acc.map Prod.fst := alookup_eq_none_iff.mp hl
    have hnoparty : ∀ m₂ ∈ P, party m₂ ≠ party m := by
      intro m₂ hmem heq
      obtain ⟨e, he⟩ := (h.keysPart (party m)).mpr ⟨m₂, hmem, heq⟩
      exact hknotin (List.mem_map.mpr ⟨(party m, e), he, rfl⟩)
    rw [hstep, he₀]
    refine ⟨?_, ?_, ?_⟩
    · rw [List.map_append]
      simp only [List.map_cons, List.map_nil]
      rw [List.nodup_append]
      exact ⟨h.nodupKeys, List.nodup_singleton _, by simpa using hknotin⟩
    · intro k₂
      constructor
      · rintro ⟨e, he⟩
        rcases List.mem_append.mp he with h₁ | h₂
        · obtain ⟨m₂, hm₂, hp₂⟩ := (h.keysPart k₂).mp ⟨e, h₁⟩
          exact ⟨m₂, List.mem_append.mpr (Or.inl hm₂), hp₂⟩
        · rw [List.mem_singleton, Prod.mk.injEq] at h₂
          exact ⟨m, List.mem_append.mpr (Or.inr (List.mem_singleton.mpr rfl)), h₂.1.symm⟩
      · rintro ⟨m₂, hm₂, hp₂⟩
        rcases List.mem_append.mp hm₂ with h₁ | h₂
        · obtain ⟨e, he⟩ := (h.keysPart k₂).mpr ⟨m₂, h₁, hp₂⟩
          exact ⟨e, List.mem_append.mpr (Or.inl he)⟩
        · rw [List.mem_singleton] at h₂
          subst h₂
          subst hp₂
          exact ⟨_, List.mem_append.mpr (Or.inr (List.mem_singleton.mpr rfl))⟩
    · intro k₂ e he
      rcases List.mem_append.mp he with h₁ | h₂
      · have hne : k₂ ≠ party m := by
          intro heq
          exact hknotin (List.mem_map.mpr ⟨(k₂, e), h₁, heq⟩)
        obtain ⟨hu, hcnt, m₀, hlast, hm₀P, hp₀, hmax⟩ := h.entries k₂ e h₁
        have hum : unreadFor k₂ m = false := by
          cases hum : unreadFor k₂ m
          · rfl
          · exact absurd (unreadFor_party hm hum).symm hne
        refine ⟨hu, ?_, m₀, hlast, List.mem_append.mpr (Or.inl hm₀P), hp₀, ?_⟩
        · rw [List.filter_append, List.length_append, hcnt]
          simp [hum]
        · intro m₂ hm₂ hp₂
          rcases List.mem_append.mp hm₂ with hQ₁ | hQ₂
          · exact hmax m₂ hQ₁ hp₂
          · rw [List.mem_singleton] at hQ₂
            subst hQ₂
            exact absurd hp₂.symm hne
      · rw [List.mem_singleton, Prod.mk.injEq] at h₂
        obtain ⟨hk₂, he₂⟩ := h₂
        subst hk₂
        subst he₂
        have hPf : P.filter (fun m₂ => unreadFor (party m) m₂) = [] := by
          rw [List.filter_eq_nil_iff]
          intro m₂ hm₂ hcon
          exact hnoparty m₂ hm₂ (by
            rw [unreadFor_party (hP m₂ hm₂) (by simpa using hcon)])
        refine ⟨rfl, ?_, m, rfl, List.mem_append.mpr (Or.inr (List.mem_singleton.mpr rfl)),
            rfl, ?_⟩
        · rw [List.filter_append, List.length_append, hPf]
          cases hum : unreadFor (party m) m <;> simp [hum]
        · intro m₂ hm₂ hp₂
          rcases List.mem_append.mp hm₂ with hQ₁ | hQ₂
          · exact absurd hp₂ (hnoparty m₂ hQ₁)
          · rw [List.mem_singleton] at hQ₂
            subst hQ₂
            exact Nat.le_refl _
  | some cur =>
    have hstep : projStep acc m = aupdate (party m) (applyMsg (party m) cur m) acc := by
      simp [projStep, hl]
    have hcurmem : (party m, cur) ∈ acc := alookup_some_mem hl
    obtain ⟨hu, hcnt, m₀, hlast, hm₀P, hp₀, hmax⟩ := h.entries _ cur hcurmem
    have hm₀good : goodMsg m₀ := hP m₀ hm₀P
    rw [hstep]
    refine ⟨?_, ?_, ?_⟩
    · rw [aupdate_keys]
      exact h.nodupKeys
    · intro k₂
      rw [exists_mem_iff_mem_keys, aupdate_keys, ← exists_mem_iff_mem_keys, h.keysPart k₂]
      constructor
      · rintro ⟨m₂, hm₂, hp₂⟩
        exact ⟨m₂, List.mem_append.mpr (Or.inl hm₂), hp₂⟩
      · rintro ⟨m₂, hm₂, hp₂⟩
        rcases List.mem_append.mp hm₂ with h₁ | h₂
        · exact ⟨m₂, h₁, hp₂⟩
        · rw [List.mem_singleton] at h₂
          subst h₂
          subst hp₂
          obtain ⟨m₃, hm₃, hp₃⟩ := (h.keysPart (party m₂)).mp ⟨cur, hcurmem⟩
          exact ⟨m₃, hm₃, hp₃⟩
    · intro k₂ e he
      rcases mem_aupdate_cases_nodup h.nodupKeys he with ⟨hk₂, he₂⟩ | ⟨hne, hin⟩
      · subst hk₂
        subst he₂
        refine ⟨hu, ?_, ?_⟩
        · show cur.unreadCount + (if unreadFor (party m) m then 1 else 0) = _
          rw [List.filter_append, List.length_append, hcnt]
          cases hum : unreadFor (party m) m <;> simp [hum]
        · rw [show (applyMsg (party m) cur m).lastMessage
              = if shouldReplaceLast cur.lastMessage m then some m else cur.lastMessage
            from rfl]
          rw [hlast, shouldReplaceLast_some hm.2.2 hm₀good.2.2]
          by_cases hlt : tsVal m₀ < tsVal m
          · rw [if_pos (by simpa using hlt)]
            refine ⟨m, rfl, List.mem_append.mpr (Or.inr (List.mem_singleton.mpr rfl)),
                rfl, ?_⟩
            intro m₂ hm₂ hp₂
            rcases List.mem_append.mp hm₂ with hQ₁ | hQ₂
            · exact Nat.le_trans (hmax m₂ hQ₁ hp₂) (Nat.le_of_lt hlt)
            · rw [List.mem_singleton] at hQ₂
              subst hQ₂
              exact Nat.le_refl _
          · rw [if_neg (by simpa using hlt)]
            refine ⟨m₀, rfl, List.mem_append.mpr (Or.inl hm₀P), hp₀, ?_⟩
            intro m₂ hm₂ hp₂
            rcases List.mem_append.mp hm₂ with hQ₁ | hQ₂
            · exact hmax m₂ hQ₁ hp₂
            · rw [List.mem_singleton] at hQ₂
              subst hQ₂
              exact Nat.le_of_not_lt hlt
      · obtain ⟨hu₂, hcnt₂, m₁, hlast₁, hm₁P, hp₁, hmax₁⟩ := h.entries k₂ e hin
        have hum : unreadFor k₂ m = false := by
          cases hum : unreadFor k₂ m
          · rfl
          · exact absurd (unreadFor_party hm hum).symm hne
        refine ⟨hu₂, ?_, m₁, hlast₁, List.mem_append.mpr (Or.inl hm₁P), hp₁, ?_⟩
        · rw [List.filter_append, List.length_append, hcnt₂]
          simp [hum]
        · intro m₂ hm₂ hp₂
          rcases List.mem_append.mp hm₂ with hQ₁ | hQ₂
          · exact hmax₁ m₂ hQ₁ hp₂
          · rw [List.mem_singleton] at hQ₂
            subst hQ₂
            exact absurd hp₂.symm hne

theorem projFoldl_inv (L : List Message) (hL : ∀ x ∈ L, goodMsg x)
    (acc : List (String × UserWithMessages)) (P : List Message)
    (hP : ∀ x ∈ P, goodMsg x) (h : ProjInv acc P) :
    ProjInv (L.foldl projStep acc) (P ++ L) := by
  induction L generalizing acc P with
  | nil => simpa using h
  | cons hd tl ih =>
    have hhd : goodMsg hd := hL hd (List.mem_cons_self _ _)
    have h₂ := projStep_inv hd hhd hP h
    have hP₂ : ∀ x ∈ P ++ [hd], goodMsg x := by
      intro x hx
      rcases List.mem_append.mp hx with h₁ | h₂
      · exact hP x h₁
      · rw [List.mem_singleton] at h₂
        subst h₂
        exact hhd
    have := ih (fun x hx => hL x (List.mem_cons_of_mem _ hx)) (projStep acc hd) (P ++ [hd])
      hP₂ h₂
    simpa [List.append_assoc] using this

theorem getAllUsersWithMessages_inv (msgs : List Message)
    (hts : ∀ m ∈ msgs, m.timestamp.isSome = true)
    (hna : ∀ m ∈ msgs, ¬(m.senderUsername = "admin" ∧ m.receiverUsername = "admin")) :
    ProjInv ((msgs.filter isAdminSide).foldl projStep []) (msgs.filter isAdminSide)
    ∧ ∀ x ∈ msgs.filter isAdminSide, goodMsg x := by
  have hgood : ∀ x ∈ msgs.filter isAdminSide, goodMsg x := by
    intro x hx
    obtain ⟨hmem, hside⟩ := List.mem_filter.mp hx
    exact ⟨hside, hna x hmem, hts x hmem⟩
  have hbase : ProjInv [] [] :=
    ⟨List.nodup_nil, fun k => by simp, fun k e he => by simp at he⟩
  have := projFoldl_inv (msgs.filter isAdminSide) hgood [] [] (by simp) hbase
  exact ⟨by simpa using this, hgood⟩

theorem filter_unread_adminSide (msgs : List Message) (u : String) :
    (msgs.filter isAdminSide).filter (fun m => unreadFor u m)
      = msgs.filter (fun m => unreadFor u m) := by
  rw [List.filter_filter]
  apply List.filter_congr
  intro m _
  cases hum : unreadFor u m
  · simp
  · simp [unreadFor_isAdminSide hum]

theorem proj_unreadCount (msgs : List Message)
    (hts : ∀ m ∈ msgs, m.timestamp.isSome = true)
    (hna : ∀ m ∈ msgs, ¬(m.senderUsername = "admin" ∧ m.receiverUsername = "admin")) :
    ∀ e ∈ getAllUsersWithMessages msgs,
      e.unreadCount = (msgs.filter (fun m => unreadFor e.username m)).length := by
  obtain ⟨hinv, _⟩ := getAllUsersWithMessages_inv msgs hts hna
  intro e he
  unfold getAllUsersWithMessages at he
  obtain ⟨x, hx, hsnd⟩ := List.mem_map.mp he
  have hx₂ : (x.1, x.2) ∈ (msgs.filter isAdminSide).foldl projStep [] := by
    rw [Prod.mk.eta]
    exact hx
  obtain ⟨husr, hcnt, _⟩ := hinv.entries x.1 x.2 hx₂
  subst hsnd
  rw [husr, ← filter_unread_adminSide]
  exact hcnt

theorem markMessagesAsRead_idem (msgs : List Message) (r reader : String) :
    markMessagesAsRead (markMessagesAsRead msgs r reader) r reader
      = markMessagesAsRead msgs r reader := by
  unfold markMessagesAsRead
  rw [List.map_map]
  apply List.map_congr_left
  intro m _
  by_cases hc : (m.roomId == r && m.receiverUsername == reader) = true
  · simp [Function.comp, hc]
  · simp [Function.comp, hc]

theorem marked_unread_false (msgs : List Message) (r u : String)
    (hroom : ∀ m ∈ msgs, unreadFor u m = true → m.roomId = r) :
    ∀ m₂ ∈ markMessagesAsRead msgs r "admin", unreadFor u m₂ = false := by
  intro m₂ hm₂
  unfold markMessagesAsRead at hm₂
  obtain ⟨m₀, hm₀, hf⟩ := List.mem_map.mp hm₂
  by_cases hc : (m₀.roomId == r && m₀.receiverUsername == "admin") = true
  · rw [if_pos hc] at hf
    subst hf
    unfold unreadFor
    simp
  · rw [if_neg hc] at hf
    subst hf
    cases hum : unreadFor u m₀
    · rfl
    · exfalso
      apply hc
      have hroomid := hroom m₀ hm₀ hum
      unfold unreadFor at hum
      rw [Bool.and_eq_true, Bool.and_eq_true] at hum
      rw [Bool.and_eq_true]
      exact ⟨beq_iff_eq.mpr hroomid, hum.1.2⟩

theorem markMessagesAsRead_preserves_rest (msgs : List Message) (r reader : String) :
    ∀ m₂ ∈ markMessagesAsRead msgs r reader, ∃ m₀ ∈ msgs,
      m₂.timestamp = m₀.timestamp ∧ m₂.senderUsername = m₀.senderUsername
        ∧ m₂.receiverUsername = m₀.receiverUsername := by
  intro m₂ hm₂
  unfold markMessagesAsRead at hm₂
  obtain ⟨m₀, hm₀, hf⟩ := List.mem_map.mp hm₂
  refine ⟨m₀, hm₀, ?_⟩
  by_cases hc : (m₀.roomId == r && m₀.receiverUsername == reader) = true
  · rw [if_pos hc] at hf
    subst hf
    exact ⟨rfl, rfl, rfl⟩
  · rw [if_neg hc] at hf
    subst hf
    exact ⟨rfl, rfl, rfl⟩

end ProjLemmas

/-! ### Claim theorems -/

/-- C4: the conversation projection has one entry per distinct non-admin
party appearing in admin-side messages (no duplicate usernames, an entry
exists exactly when some message of the pair exists, and no entry is named
`"admin"`); each entry's `lastMessage` is a message of that pair carrying
the maximal timestamp, and `unreadCount` counts exactly the unread messages
sent by that user to `"admin"`.  The hypotheses record the store invariants
the projection presupposes: timestamps are non-null (the database always
assigns them) and no message is admin-to-admin. -/
theorem C4_conversation_projection (msgs : List Message)
    (hts : ∀ m ∈ msgs, m.timestamp.isSome = true)
    (hna : ∀ m ∈ msgs, ¬(m.senderUsername = "admin" ∧ m.receiverUsername = "admin")) :
    ((getAllUsersWithMessages msgs).map (fun e => e.username)).Nodup
    ∧ (∀ u, (∃ e ∈ getAllUsersWithMessages msgs, e.username = u) ↔
        ∃ m ∈ msgs, pairFor u m = true)
    ∧ ∀ e ∈ getAllUsersWithMessages msgs,
        e.username ≠ "admin"
        ∧ e.unreadCount = (msgs.filter (fun m => unreadFor e.username m)).length
        ∧ ∃ m, e.lastMessage = some m ∧ m ∈ msgs ∧ pairFor e.username m = true
            ∧ ∀ m₂ ∈ msgs, pairFor e.username m₂ = true → tsVal m₂ ≤ tsVal m := by
  obtain ⟨hinv, hgood⟩ := getAllUsersWithMessages_inv msgs hts hna
  have hdef : getAllUsersWithMessages msgs
      = ((msgs.filter isAdminSide).foldl projStep []).map Prod.snd := rfl
  refine ⟨?_, ?_, ?_⟩
  · have hmapeq : (getAllUsersWithMessages msgs).map (fun e => e.username)
        = ((msgs.filter isAdminSide).foldl projStep []).map Prod.fst := by
      rw [hdef, List.map_map]
      apply List.map_congr_left
      intro x hx
      have hx₂ : (x.1, x.2) ∈ (msgs.filter isAdminSide).foldl projStep [] := by
        rw [Prod.mk.eta]
        exact hx
      exact (hinv.entries x.1 x.2 hx₂).1
    rw [hmapeq]
    exact hinv.nodupKeys
  · intro u
    constructor
    · rintro ⟨e, he, hu⟩
      rw [hdef] at he
      obtain ⟨x, hx, hsnd⟩ := List.mem_map.mp he
      have hx₂ : (x.1, x.2) ∈ (msgs.filter isAdminSide).foldl projStep [] := by
        rw [Prod.mk.eta]
        exact hx
      have husr := (hinv.entries x.1 x.2 hx₂).1
      obtain ⟨m₂, hm₂, hp₂⟩ := (hinv.keysPart x.1).mp ⟨x.2, hx₂⟩
      refine ⟨m₂, (List.mem_filter.mp hm₂).1, ?_⟩
      rw [pairFor_iff_party (hgood m₂ hm₂), hp₂, ← husr, hsnd, hu]
    · rintro ⟨m₂, hm₂, hp₂⟩
      have hmf : m₂ ∈ msgs.filter isAdminSide :=
        List.mem_filter.mpr ⟨hm₂, pairFor_isAdminSide hp₂⟩
      have hparty : party m₂ = u := (pairFor_iff_party (hgood m₂ hmf)).mp hp₂
      obtain ⟨e, he⟩ := (hinv.keysPart u).mpr ⟨m₂, hmf, hparty⟩
      refine ⟨e, ?_, (hinv.entries u e he).1⟩
      rw [hdef]
      exact List.mem_map.mpr ⟨(u, e), he, rfl⟩
  · intro e he
    have hcnt := proj_unreadCount msgs hts hna e he
    rw [hdef] at he
    obtain ⟨x, hx, hsnd⟩ := List.mem_map.mp he
    have hx₂ : (x.1, x.2) ∈ (msgs.filter isAdminSide).foldl projStep [] := by
      rw [Prod.mk.eta]
      exact hx
    obtain ⟨husr, _, m₀, hlast, hm₀, hp₀, hmax⟩ := hinv.entries x.1 x.2 hx₂
    subst hsnd
    refine ⟨?_, hcnt, m₀, hlast, (List.mem_filter.mp hm₀).1, ?_, ?_⟩
    · obtain ⟨m₂, hm₂, hp₂⟩ := (hinv.keysPart x.1).mp ⟨x.2, hx₂⟩
      rw [husr, ← hp₂]
      exact party_ne_admin (hgood m₂ hm₂)
    · rw [pairFor_iff_party (hgood m₀ hm₀), hp₀, husr]
    · intro m₂ hm₂ hp₂
      have hmf : m₂ ∈ msgs.filter isAdminSide :=
        List.mem_filter.mpr ⟨hm₂, pairFor_isAdminSide hp₂⟩
      apply hmax m₂ hmf
      rw [← husr]
      exact (pairFor_iff_party (hgood m₂ hmf)).mp hp₂

/-- C4 witness: a single user-to-admin message yields a duplicate-free
projection with an entry for `alice`. -/
theorem C4_conversation_projection_witness :
    ((getAllUsersWithMessages [⟨1, "alice", "alice", "admin", "hi", some 5, false⟩]).map
        (fun e => e.username)).Nodup
    ∧ ∃ e ∈ getAllUsersWithMessages [⟨1, "alice", "alice", "admin", "hi", some 5, false⟩],
        e.username = "alice" := by
  have h := C4_conversation_projection
    [⟨1, "alice", "alice", "admin", "hi", some 5, false⟩] (by decide) (by decide)
  exact ⟨h.1, (h.2.1 "alice").mpr
    ⟨⟨1, "alice", "alice", "admin", "hi", some 5, false⟩,
      List.mem_singleton.mpr rfl, by decide⟩⟩

/-- C7: mark-as-read is idempotent — marking the same room twice with the
same reader leaves exactly the store of a single marking (and, being a total
function, the second call raises no error) — and once the admin has marked
room `r`, the projection entry of any user whose unread messages all live in
room `r` shows `unreadCount = 0`, after the first call and after the
second. -/
theorem C7_mark_as_read_idempotent (msgs : List Message) (r reader u : String)
    (hts : ∀ m ∈ msgs, m.timestamp.isSome = true)
    (hna : ∀ m ∈ msgs, ¬(m.senderUsername = "admin" ∧ m.receiverUsername = "admin"))
    (hroom : ∀ m ∈ msgs, unreadFor u m = true → m.roomId = r) :
    markMessagesAsRead (markMessagesAsRead msgs r reader) r reader
        = markMessagesAsRead msgs r reader
    ∧ (∀ e ∈ getAllUsersWithMessages (markMessagesAsRead msgs r "admin"),
        e.username = u → e.unreadCount = 0)
    ∧ (∀ e ∈ getAllUsersWithMessages
          (markMessagesAsRead (markMessagesAsRead msgs r "admin") r "admin"),
        e.username = u → e.unreadCount = 0) := by
  have hts₂ : ∀ m ∈ markMessagesAsRead msgs r "admin", m.timestamp.isSome = true := by
    intro m₂ hm₂
    obtain ⟨m₀, hm₀, hteq, _, _⟩ := markMessagesAsRead_preserves_rest msgs r "admin" m₂ hm₂
    rw [hteq]
    exact hts m₀ hm₀
  have hna₂ : ∀ m ∈ markMessagesAsRead msgs r "admin",
      ¬(m.senderUsername = "admin" ∧ m.receiverUsername = "admin") := by
    intro m₂ hm₂
    obtain ⟨m₀, hm₀, _, hseq, hreq⟩ := markMessagesAsRead_preserves_rest msgs r "admin" m₂ hm₂
    rw [hseq, hreq]
    exact hna m₀ hm₀
  have hzero : ∀ e ∈ getAllUsersWithMessages (markMessagesAsRead msgs r "admin"),
      e.username = u → e.unreadCount = 0 := by
    intro e he hu
    rw [proj_unreadCount (markMessagesAsRead msgs r "admin") hts₂ hna₂ e he]
    rw [hu]
    rw [List.length_eq_zero]
    rw [List.filter_eq_nil_iff]
    intro m₂ hm₂ hcon
    rw [marked_unread_false msgs r u hroom m₂ hm₂] at hcon
    exact Bool.false_ne_true hcon
  refine ⟨markMessagesAsRead_idem msgs r reader, hzero, ?_⟩
  rw [markMessagesAsRead_idem msgs r "admin"]
  exact hzero

/-- C7 witness: after the admin marks room `"alice"`, the projection shows
zero unread messages for `alice`, and re-marking does not change the
store. -/
theorem C7_mark_as_read_idempotent_witness :
    markMessagesAsRead
        (markMessagesAsRead [⟨1, "alice", "alice", "admin", "hi", some 5, false⟩]
          "alice" "admin") "alice" "admin"
      = markMessagesAsRead [⟨1, "alice", "alice", "admin", "hi", some 5, false⟩]
          "alice" "admin"
    ∧ ∀ e ∈ getAllUsersWithMessages
        (markMessagesAsRead [⟨1, "alice", "alice", "admin", "hi", some 5, false⟩]
          "alice" "admin"),
        e.username = "alice" → e.unreadCount = 0 := by
  have h := C7_mark_as_read_idempotent
    [⟨1, "alice", "alice", "admin", "hi", some 5, false⟩] "alice" "admin" "alice"
    (by decide) (by decide) (by decide)
  exact ⟨h.1, h.2.1⟩

/-- C3: every message persisted by the router has `receiverUsername = "admin"`
when the sending identity is a user, and `receiverUsername` equal to the
event's `targetUsername` (never `"admin"` as long as the admin never targets
the username `"admin"`) when the sending identity is an admin; in
particular no persisted message has a non-admin sender together with a
receiver other than `"admin"`. -/
theorem C3_receiver_direction (info : ConnInfo) (d : MessageData) (im : InsertMessage)
    (hb : buildInsertMessage info d = some im) :
    (info.isAdmin = false → im.receiverUsername = "admin")
    ∧ (info.isAdmin = true → d.targetUsername = some im.receiverUsername)
    ∧ (info.isAdmin = true → d.targetUsername ≠ some "admin" → im.receiverUsername ≠ "admin")
    ∧ (info.isAdmin = true ∨ im.receiverUsername = "admin")
    ∧ im.senderUsername = info.username := by
  cases hA : info.isAdmin
  · simp only [buildInsertMessage, hA, Bool.false_eq_true, if_false] at hb
    rw [Option.some.injEq] at hb
    subst hb
    simp
  · simp only [buildInsertMessage, hA, if_true] at hb
    cases htg : d.targetUsername with
    | none => rw [htg] at hb; simp at hb
    | some t =>
      rw [htg] at hb
      rw [Option.some.injEq] at hb
      subst hb
      refine ⟨by simp, fun _ => rfl, fun _ hne => ?_, Or.inl rfl, rfl⟩
      intro he
      exact hne (congrArg some he)

/-- C3 witness: a user-authored event is persisted with receiver `"admin"`. -/
theorem C3_receiver_direction_witness :
    buildInsertMessage ⟨"bob", false, "bob"⟩ ⟨"bob", none, "hi"⟩
        = some ⟨"bob", "bob", "admin", "hi"⟩
    ∧ (⟨"bob", "bob", "admin", "hi"⟩ : InsertMessage).receiverUsername = "admin" :=
  ⟨rfl, (C3_receiver_direction ⟨"bob", false, "bob"⟩ ⟨"bob", none, "hi"⟩ _ rfl).1 rfl⟩

/-- C5: persistence is the durability boundary of the `message` case — when
the store rejects the write, no connection receives anything (in particular
the sender gets no explicit error reply, since the send list is empty), and
when the write is acknowledged every delivered frame is exactly the
acknowledged persisted message. -/
theorem C5_persistence_boundary (conns : Registry) (rs : ConnId → Bool) (ws : ConnId)
    (d : MessageData) (persist : InsertMessage → Except Unit Message)
    (info : ConnInfo) (im : InsertMessage)
    (hid : alookup ws conns = some info) (hb : buildInsertMessage info d = some im) :
    (∀ e : Unit, persist im = .error e → messageCase conns rs ws d persist = [])
    ∧ (∀ m : Message, persist im = .ok m →
        ∀ c o, (c, o) ∈ messageCase conns rs ws d persist → o = Outbound.message m) := by
  constructor
  · intro e he
    simp [messageCase, hid, hb, he]
  · intro m hm c o h
    simp only [messageCase, hid, hb, hm] at h
    split at h
    · rcases List.mem_map.mp h with ⟨x, _, hfx⟩
      rw [Prod.mk.injEq] at hfx
      exact hfx.2.symm
    · rcases List.mem_map.mp h with ⟨x, _, hfx⟩
      rw [Prod.mk.injEq] at hfx
      exact hfx.2.symm

/-- C5 witness: with a rejecting store, a user-authored message event
produces no sends at all. -/
theorem C5_persistence_boundary_witness :
    messageCase [(0, ⟨"alice", false, "alice"⟩)] (fun _ => true) 0
        ⟨"alice", none, "hi"⟩ (fun _ => Except.error ()) = [] :=
  (C5_persistence_boundary [(0, ⟨"alice", false, "alice"⟩)] (fun _ => true) 0
      ⟨"alice", none, "hi"⟩ (fun _ => Except.error ()) ⟨"alice", false, "alice"⟩
      ⟨"alice", "alice", "admin", "hi"⟩ rfl rfl).1 () rfl

/-- C6: mark-as-read sets `isRead` exactly on the messages of the given room
whose receiver is the reader; messages addressed to someone else, messages of
other rooms, and messages the reader sent to someone else keep their `isRead`
value (and all other fields) unchanged. -/
theorem C6_mark_as_read_scope (msgs : List Message) (r reader : String) :
    (markMessagesAsRead msgs r reader).length = msgs.length
    ∧ ∀ (i : Nat) (m : Message), msgs[i]? = some m →
        ((m.roomId = r ∧ m.receiverUsername = reader →
            (markMessagesAsRead msgs r reader)[i]? = some { m with isRead := true })
        ∧ (m.receiverUsername ≠ reader → (markMessagesAsRead msgs r reader)[i]? = some m)
        ∧ (m.roomId ≠ r → (markMessagesAsRead msgs r reader)[i]? = some m)
        ∧ (m.senderUsername = reader → m.receiverUsername ≠ reader →
            (markMessagesAsRead msgs r reader)[i]? = some m)) := by
  constructor
  · simp [markMessagesAsRead]
  · intro i m hm
    have hmap : (markMessagesAsRead msgs r reader)[i]? =
        some (if m.roomId == r && m.receiverUsername == reader
              then { m with isRead := true } else m) := by
      simp [markMessagesAsRead, hm]
    refine ⟨?_, ?_, ?_, ?_⟩
    · rintro ⟨h₁, h₂⟩
      rw [hmap]
      simp [h₁, h₂]
    · intro h
      rw [hmap]
      simp [h]
    · intro h
      rw [hmap]
      simp [h]
    · intro _ h
      rw [hmap]
      simp [h]

/-- C8 counterexample: a join event on a connection that already has a
registered identity is not an error — the handler proceeds normally,
silently overwrites the registry binding with the new identity (here
`alice` is replaced by `bob`), and adds a fresh presence record, exactly as
for a first join. -/
theorem C8_counterexample :
    (joinCase [(0, ⟨"alice", false, "alice"⟩)] [] 0 ⟨"bob", false, "bob"⟩ 5).1
        = [(0, ⟨"bob", false, "bob"⟩)]
    ∧ (joinCase [(0, ⟨"alice", false, "alice"⟩)] [] 0 ⟨"bob", false, "bob"⟩ 5).2
        = [⟨"bob", "bob", "bob-5", false⟩]
    ∧ (⟨"alice", false, "alice"⟩ : ConnInfo) ≠ ⟨"bob", false, "bob"⟩ := by
  refine ⟨rfl, rfl, by decide⟩

/-- C8 amended: registration in the Connection Registry never fails — a join
event on a fresh connection binds exactly the supplied identity, a join
event on an already-registered connection silently overwrites the binding
with the newly supplied identity, other connections' bindings are untouched,
and no uniqueness constraint on usernames is enforced. -/
theorem C8_register_overwrites (conns : Registry) (ws : ConnId) (info : ConnInfo) :
    alookup ws (mapSet conns ws info) = some info
    ∧ ∀ ws₂, ws₂ ≠ ws → alookup ws₂ (mapSet conns ws info) = alookup ws₂ conns :=
  ⟨alookup_mapSet_self conns ws info, fun _ h => alookup_mapSet_ne conns info h⟩

/-- C8 witness: registering connection 0 with the username `"alice"` while
connection 1 already holds the same username succeeds, binds the supplied
identity, and leaves connection 1's binding untouched. -/
theorem C8_register_overwrites_witness :
    alookup 0 (mapSet ([(1, ⟨"alice", false, "alice"⟩)] : Registry) 0 ⟨"alice", true, "admin"⟩)
        = some ⟨"alice", true, "admin"⟩
    ∧ alookup 1 (mapSet ([(1, ⟨"alice", false, "alice"⟩)] : Registry) 0 ⟨"alice", true, "admin"⟩)
        = alookup 1 ([(1, ⟨"alice", false, "alice"⟩)] : Registry) :=
  ⟨(C8_register_overwrites [(1, ⟨"alice", false, "alice"⟩)] 0 ⟨"alice", true, "admin"⟩).1,
   (C8_register_overwrites [(1, ⟨"alice", false, "alice"⟩)] 0 ⟨"alice", true, "admin"⟩).2
      1 (by decide)⟩

/-- C1: on transport close the code calls `removeOnlineUser` with a socket id
rebuilt from a fresh `Date.now()`, not the one stored at join time; with
`alice` having joined at time 1 (presence record `alice-1`) and closing at
time 2, the delete targets the non-existent id `alice-2`, the join-time
presence record survives, and `alice` still counts as online although her
only connection is gone from the registry. -/
theorem C1_close_leaves_presence :
    (closeCase [(0, ⟨"alice", false, "alice"⟩)]
        [⟨"alice", "alice", socketIdFor "alice" 1, false⟩] (fun _ => true) 0 2).2.1
      = [⟨"alice", "alice", socketIdFor "alice" 1, false⟩]
    ∧ isUserOnline
        (closeCase [(0, ⟨"alice", false, "alice"⟩)]
            [⟨"alice", "alice", socketIdFor "alice" 1, false⟩] (fun _ => true) 0 2).2.1
        "alice" = true
    ∧ alookup 0
        (closeCase [(0, ⟨"alice", false, "alice"⟩)]
            [⟨"alice", "alice", socketIdFor "alice" 1, false⟩] (fun _ => true) 0 2).1
      = none := by
  refine ⟨by decide, by decide, by decide⟩

/-- C2: with the write acknowledged, the `message` case delivers the
persisted message exactly to the open connections of the fan-out set: for an
admin sender those whose username equals the event's `targetUsername` or
which are admin connections of the sender's username; for a user sender the
admin connections and the sender's sibling connections.  Every frame sent is
the persisted message, each connection of the set receives it at most once
(`Nodup`), and no other connection receives anything. -/
theorem C2_message_fanout (conns : Registry) (rs : ConnId → Bool) (ws : ConnId)
    (d : MessageData) (persist : InsertMessage → Except Unit Message)
    (info : ConnInfo) (im : InsertMessage) (m : Message)
    (hnd : (conns.map Prod.fst).Nodup)
    (hid : alookup ws conns = some info)
    (hb : buildInsertMessage info d = some im)
    (hp : persist im = Except.ok m) :
    (∀ c o, (c, o) ∈ messageCase conns rs ws d persist → o = Outbound.message m)
    ∧ (∀ c, (c, Outbound.message m) ∈ messageCase conns rs ws d persist ↔
        ∃ i, alookup c conns = some i ∧ rs c = true ∧
          (if info.isAdmin then
            (some i.username = d.targetUsername ∨ (i.isAdmin = true ∧ i.username = info.username))
          else
            (i.isAdmin = true ∨ i.username = info.username)))
    ∧ (messageCase conns rs ws d persist).Nodup := by
  have hcase : messageCase conns rs ws d persist =
      (if info.isAdmin then
        (conns.filter (fun p =>
            ((some p.2.username == d.targetUsername)
              || (p.2.isAdmin && p.2.username == info.username)) && rs p.1)).map
          (fun p => (p.1, Outbound.message m))
      else
        (conns.filter (fun p =>
            (p.2.isAdmin || p.2.username == info.username) && rs p.1)).map
          (fun p => (p.1, Outbound.message m))) := by
    simp [messageCase, hid, hb, hp]
  cases hA : info.isAdmin
  · rw [hA] at hcase
    simp only [Bool.false_eq_true, if_false] at hcase
    rw [hcase]
    refine ⟨?_, ?_, broadcast_nodup _ _ hnd⟩
    · intro c o h
      rcases List.mem_map.mp h with ⟨x, _, hfx⟩
      rw [Prod.mk.injEq] at hfx
      exact hfx.2.symm
    · intro c
      rw [mem_broadcast_iff hnd]
      simp [Bool.and_eq_true, Bool.or_eq_true, beq_iff_eq, and_comm]
  · rw [hA] at hcase
    simp only [if_true] at hcase
    rw [hcase]
    refine ⟨?_, ?_, broadcast_nodup _ _ hnd⟩
    · intro c o h
      rcases List.mem_map.mp h with ⟨x, _, hfx⟩
      rw [Prod.mk.injEq] at hfx
      exact hfx.2.symm
    · intro c
      rw [mem_broadcast_iff hnd]
      simp [Bool.and_eq_true, Bool.or_eq_true, beq_iff_eq, and_comm]

/-- C2 witness: a message from user `alice` (connection 0) is delivered to
the open admin connection 1. -/
theorem C2_message_fanout_witness :
    (1, Outbound.message ⟨7, "alice", "alice", "admin", "hi", some 9, false⟩) ∈
      messageCase [(0, ⟨"alice", false, "alice"⟩), (1, ⟨"admin", true, "admin"⟩)]
        (fun _ => true) 0 ⟨"alice", none, "hi"⟩
        (fun _ => Except.ok ⟨7, "alice", "alice", "admin", "hi", some 9, false⟩) :=
  ((C2_message_fanout
      [(0, ⟨"alice", false, "alice"⟩), (1, ⟨"admin", true, "admin"⟩)]
      (fun _ => true) 0 ⟨"alice", none, "hi"⟩
      (fun _ => Except.ok ⟨7, "alice", "alice", "admin", "hi", some 9, false⟩)
      ⟨"alice", false, "alice"⟩ ⟨"alice", "alice", "admin", "hi"⟩
      ⟨7, "alice", "alice", "admin", "hi", some 9, false⟩
      (by decide) rfl rfl rfl).2.1 1).mpr
    ⟨⟨"admin", true, "admin"⟩, rfl, rfl, by simp⟩

/-- C9: a typing event from a registered user delivers
`{username, isTyping, roomId}` to exactly the open admin connections; a
typing event from a registered admin delivers `{username, isTyping}` to
exactly the open connections whose username equals the event's
`targetUsername`; no duplicate delivery, nobody else receives anything, and
the message store is untouched. -/
theorem C9_typing_fanout (conns : Registry) (rs : ConnId → Bool) (ws : ConnId)
    (d : TypingData) (msgStore : List Message) (info : ConnInfo)
    (hnd : (conns.map Prod.fst).Nodup) (hid : alookup ws conns = some info) :
    (typingCase conns rs ws d msgStore).1 = msgStore
    ∧ (info.isAdmin = false →
        (∀ c o, (c, o) ∈ (typingCase conns rs ws d msgStore).2 →
            o = Outbound.typing info.username d.isTyping (some info.roomId))
        ∧ (∀ c, (c, Outbound.typing info.username d.isTyping (some info.roomId))
              ∈ (typingCase conns rs ws d msgStore).2 ↔
            ∃ i, alookup c conns = some i ∧ i.isAdmin = true ∧ rs c = true)
        ∧ (typingCase conns rs ws d msgStore).2.Nodup)
    ∧ (info.isAdmin = true →
        (∀ c o, (c, o) ∈ (typingCase conns rs ws d msgStore).2 →
            o = Outbound.typing info.username d.isTyping none)
        ∧ (∀ c, (c, Outbound.typing info.username d.isTyping none)
              ∈ (typingCase conns rs ws d msgStore).2 ↔
            ∃ i, alookup c conns = some i ∧ some i.username = d.targetUsername ∧ rs c = true)
        ∧ (typingCase conns rs ws d msgStore).2.Nodup) := by
  cases hA : info.isAdmin
  · have hcase : typingCase conns rs ws d msgStore =
        (msgStore,
          (conns.filter (fun p => p.2.isAdmin && rs p.1)).map
            (fun p => (p.1, Outbound.typing info.username d.isTyping (some info.roomId)))) := by
      simp [typingCase, hid, hA]
    rw [hcase]
    refine ⟨rfl, fun _ => ⟨?_, ?_, broadcast_nodup _ _ hnd⟩, fun h => by simp at h⟩
    · intro c o h
      rcases List.mem_map.mp h with ⟨x, _, hfx⟩
      rw [Prod.mk.injEq] at hfx
      exact hfx.2.symm
    · intro c
      rw [mem_broadcast_iff hnd]
      simp [Bool.and_eq_true, and_comm]
  · have hcase : typingCase conns rs ws d msgStore =
        (msgStore,
          (conns.filter (fun p => (some p.2.username == d.targetUsername) && rs p.1)).map
            (fun p => (p.1, Outbound.typing info.username d.isTyping none))) := by
      simp [typingCase, hid, hA]
    rw [hcase]
    refine ⟨rfl, fun h => by simp at h, fun _ => ⟨?_, ?_, broadcast_nodup _ _ hnd⟩⟩
    · intro c o h
      rcases List.mem_map.mp h with ⟨x, _, hfx⟩
      rw [Prod.mk.injEq] at hfx
      exact hfx.2.symm
    · intro c
      rw [mem_broadcast_iff hnd]
      simp [Bool.and_eq_true, beq_iff_eq, and_comm]

/-- C9 witness: user `alice` typing is delivered to the open admin
connection and the message store is unchanged. -/
theorem C9_typing_fanout_witness :
    (typingCase [(0, ⟨"alice", false, "alice"⟩), (1, ⟨"admin", true, "admin"⟩)]
        (fun _ => true) 0 ⟨none, true⟩ []).1 = []
    ∧ (1, Outbound.typing "alice" true (some "alice")) ∈
        (typingCase [(0, ⟨"alice", false, "alice"⟩), (1, ⟨"admin", true, "admin"⟩)]
          (fun _ => true) 0 ⟨none, true⟩ []).2 := by
  have h := C9_typing_fanout
    [(0, ⟨"alice", false, "alice"⟩), (1, ⟨"admin", true, "admin"⟩)]
    (fun _ => true) 0 ⟨none, true⟩ [] ⟨"alice", false, "alice"⟩ (by decide) rfl
  exact ⟨h.1, ((h.2.1 rfl).2.1 1).mpr ⟨⟨"admin", true, "admin"⟩, rfl, rfl, rfl⟩⟩

/-- C10: once a posted help request is persisted, the stored record is sent
in a `helpRequest` frame to exactly the currently-open admin connections
(none of them twice, non-admin connections receive nothing), and the HTTP
response is the stored record. -/
theorem C10_help_request_route (conns : Registry) (rs : ConnId → Bool)
    (v : InsertHelpRequest) (persist : InsertHelpRequest → Except Unit HelpRequest)
    (h : HelpRequest)
    (hnd : (conns.map Prod.fst).Nodup) (hp : persist v = Except.ok h) :
    (helpRequestsPost conns rs (Except.ok v) persist).2 = HelpResponse.json h
    ∧ (∀ c o, (c, o) ∈ (helpRequestsPost conns rs (Except.ok v) persist).1 →
        o = Outbound.helpRequest h)
    ∧ (∀ c, (c, Outbound.helpRequest h) ∈ (helpRequestsPost conns rs (Except.ok v) persist).1 ↔
        ∃ i, alookup c conns = some i ∧ i.isAdmin = true ∧ rs c = true)
    ∧ (helpRequestsPost conns rs (Except.ok v) persist).1.Nodup := by
  have hcase : helpRequestsPost conns rs (Except.ok v) persist =
      ((conns.filter (fun p => p.2.isAdmin && rs p.1)).map
          (fun p => (p.1, Outbound.helpRequest h)),
       HelpResponse.json h) := by
    simp [helpRequestsPost, hp]
  rw [hcase]
  refine ⟨rfl, ?_, ?_, broadcast_nodup _ _ hnd⟩
  · intro c o hmem
    rcases List.mem_map.mp hmem with ⟨x, _, hfx⟩
    rw [Prod.mk.injEq] at hfx
    exact hfx.2.symm
  · intro c
    rw [mem_broadcast_iff hnd]
    simp [Bool.and_eq_true, and_comm]

/-- C10 witness: a persisted help request reaches the open admin connection
and is echoed in the HTTP response. -/
theorem C10_help_request_route_witness :
    (helpRequestsPost [(0, ⟨"alice", false, "alice"⟩), (1, ⟨"admin", true, "admin"⟩)]
        (fun _ => true) (Except.ok ⟨"alice", "alice", "help", none⟩)
        (fun _ => Except.ok ⟨3, "alice", "alice", "help", "pending", some 4⟩)).2
      = HelpResponse.json ⟨3, "alice", "alice", "help", "pending", some 4⟩
    ∧ (1, Outbound.helpRequest ⟨3, "alice", "alice", "help", "pending", some 4⟩) ∈
        (helpRequestsPost [(0, ⟨"alice", false, "alice"⟩), (1, ⟨"admin", true, "admin"⟩)]
          (fun _ => true) (Except.ok ⟨"alice", "alice", "help", none⟩)
          (fun _ => Except.ok ⟨3, "alice", "alice", "help", "pending", some 4⟩)).1 := by
  have h := C10_help_request_route
    [(0, ⟨"alice", false, "alice"⟩), (1, ⟨"admin", true, "admin"⟩)]
    (fun _ => true) ⟨"alice", "alice", "help", none⟩
    (fun _ => Except.ok ⟨3, "alice", "alice", "help", "pending", some 4⟩)
    ⟨3, "alice", "alice", "help", "pending", some 4⟩ (by decide) rfl
  exact ⟨h.1, (h.2.2.1 1).mpr ⟨⟨"admin", true, "admin"⟩, rfl, rfl, rfl⟩⟩

/-- C6 witness: a user-to-admin message in room `"alice"` is marked read by
the admin's mark-as-read for that room. -/
theorem C6_mark_as_read_scope_witness :
    (markMessagesAsRead [⟨1, "alice", "alice", "admin", "hi", some 5, false⟩] "alice" "admin")[0]?
      = some ⟨1, "alice", "alice", "admin", "hi", some 5, true⟩ :=
  ((C6_mark_as_read_scope [⟨1, "alice", "alice", "admin", "hi", some 5, false⟩]
      "alice" "admin").2 0 ⟨1, "alice", "alice", "admin", "hi", some 5, false⟩ rfl).1
    ⟨rfl, rfl⟩

end LiveChat
